import Mathlib

/-!
Verification development for the strategy-analyst backend (Go).

The Go services under `internal/services` (document.go, chat.go, ai.go) are
shallowly embedded here.  Text is modelled as `List Char` (one element per
Go rune; the source only manipulates ASCII-relevant boundaries).  Database
tables are modelled as in-memory lists of rows; the external blob store is a
list of keys.  Operations that can fail at the transport level (blob upload
and delete, SQL inserts, the model call) are parameterised by an explicit
environment record carrying the outcome of each such external step, mirroring
each `if err != nil` branch of the source.  Pure SQL reads over the modelled
state are total.
-/

abbrev Str := List Char

/-- Whitespace test used by Go's `strings.Fields` / `strings.TrimSpace`
(`unicode.IsSpace` restricted to its ASCII cases, which are the only ones the
source's inputs exercise): space, \t, \n, \v, \f, \r. -/
def goIsSpace (c : Char) : Bool :=
  c == ' ' || c == '\t' || c == '\n' || c == Char.ofNat 11 || c == Char.ofNat 12 || c == '\r'

/-- Go `strings.TrimSpace`: drop leading and trailing whitespace. -/
def trimSpace (s : Str) : Str :=
  ((s.dropWhile goIsSpace).reverse.dropWhile goIsSpace).reverse

/-- Split a character list at every element satisfying `p`, keeping empty
parts (the shape of Go `strings.Split` for a one-rune separator). -/
def splitBy (p : Char → Bool) : Str → List Str
  | [] => [[]]
  | c :: s =>
    if p c then [] :: splitBy p s
    else
      match splitBy p s with
      | [] => [[c]]
      | t :: ts => (c :: t) :: ts

/-- Go `strings.Fields`: maximal whitespace-free runs, in order. -/
def fields (s : Str) : List Str :=
  (splitBy goIsSpace s).filter (fun w => !w.isEmpty)

/-- Go `strings.Split(response, "\n")`. -/
def splitLines (s : Str) : List Str := splitBy (fun c => c == '\n') s

theorem splitBy_ne_nil (p : Char → Bool) (s : Str) : splitBy p s ≠ [] := by
  cases s with
  | nil => simp [splitBy]
  | cons c s =>
    simp only [splitBy]
    split
    · simp
    · split
      · simp
      · simp

theorem splitBy_append_sep (p : Char → Bool) (c : Char) (hc : p c = true) :
    ∀ x y : Str, splitBy p (x ++ c :: y) = splitBy p x ++ splitBy p y := by
  intro x
  induction x with
  | nil => intro y; simp [splitBy, hc]
  | cons a x ih =>
    intro y
    by_cases ha : p a = true
    · simp [splitBy, ha, ih]
    · simp only [List.cons_append, splitBy, ha, Bool.false_eq_true, if_false, List.append_eq]
      rw [ih y]
      cases h : splitBy p x with
      | nil => exact absurd h (splitBy_ne_nil p x)
      | cons t ts => simp

theorem mem_splitBy_not (p : Char → Bool) :
    ∀ s : Str, ∀ w ∈ splitBy p s, ∀ c ∈ w, p c = false := by
  intro s
  induction s with
  | nil => simp [splitBy]
  | cons a s ih =>
    intro w hw c hc
    by_cases ha : p a = true
    · simp only [splitBy, ha, if_true, List.mem_cons] at hw
      rcases hw with h | h
      · subst h; simp at hc
      · exact ih w h c hc
    · simp only [splitBy, ha, Bool.false_eq_true, if_false] at hw
      cases h : splitBy p s with
      | nil => exact absurd h (splitBy_ne_nil p s)
      | cons t ts =>
        rw [h] at hw
        simp only [List.mem_cons] at hw
        rcases hw with hw | hw
        · subst hw
          simp only [List.mem_cons] at hc
          rcases hc with hc | hc
          · subst hc; simpa using ha
          · exact ih t (by simp [h]) c hc
        · exact ih w (by simp [h, hw]) c hc

theorem splitBy_all_not (p : Char → Bool) :
    ∀ s : Str, (∀ c ∈ s, p c = false) → splitBy p s = [s] := by
  intro s
  induction s with
  | nil => simp [splitBy]
  | cons a s ih =>
    intro h
    have ha : p a = false := h a (by simp)
    have hs := ih (fun c hc => h c (by simp [hc]))
    simp [splitBy, ha, hs]

/-- A `strings.Fields` word: nonempty and whitespace-free. -/
def goodWord (w : Str) : Prop := w ≠ [] ∧ ∀ c ∈ w, goIsSpace c = false

theorem fields_good (s : Str) : ∀ w ∈ fields s, goodWord w := by
  intro w hw
  simp only [fields, List.mem_filter, Bool.not_eq_true'] at hw
  exact ⟨by simpa [List.isEmpty_iff] using hw.2, mem_splitBy_not goIsSpace s w hw.1⟩

theorem fields_append_space (x y : Str) :
    fields (x ++ ' ' :: y) = fields x ++ fields y := by
  simp [fields, splitBy_append_sep goIsSpace ' ' (by decide) x y, List.filter_append]

theorem fields_nil : fields [] = [] := rfl

theorem fields_goodWord (w : Str) (h : goodWord w) : fields w = [w] := by
  rcases h with ⟨h1, h2⟩
  simp [fields, splitBy_all_not goIsSpace w h2, List.isEmpty_iff, h1]

theorem fields_all_space : ∀ s : Str, (∀ c ∈ s, goIsSpace c = true) → fields s = [] := by
  intro s
  induction s with
  | nil => intro _; rfl
  | cons a s ih =>
    intro h
    have ha : goIsSpace a = true := h a (by simp)
    have hs := ih (fun c hc => h c (by simp [hc]))
    simp only [fields, splitBy, ha, if_true] at *
    simpa using hs

theorem mem_of_head?_eq (w : Str) (c : Char) (h : w.head? = some c) : c ∈ w := by
  cases w with
  | nil => simp at h
  | cons a t =>
    simp only [List.head?_cons, Option.some.injEq] at h
    simp [h]

theorem mem_of_getLast?_eq : ∀ (w : Str) (c : Char), w.getLast? = some c → c ∈ w
  | [], c, h => by simp at h
  | [a], c, h => by
    simp only [List.getLast?_singleton, Option.some.injEq] at h
    simp [h]
  | a :: b :: t, c, h => by
    rw [List.getLast?_cons_cons] at h
    exact List.mem_cons_of_mem a (mem_of_getLast?_eq (b :: t) c h)

theorem trimSpace_eq_self (s : Str)
    (h1 : ∀ c, s.head? = some c → goIsSpace c = false)
    (h2 : ∀ c, s.getLast? = some c → goIsSpace c = false) : trimSpace s = s := by
  cases s with
  | nil => rfl
  | cons a t =>
    have ha : goIsSpace a = false := h1 a rfl
    unfold trimSpace
    rw [List.dropWhile_cons, ha]
    simp only [Bool.false_eq_true, if_false]
    cases hr : (a :: t).reverse with
    | nil => simp at hr
    | cons b u =>
      have hat : a :: t = u.reverse ++ [b] := by
        rw [← List.reverse_reverse (a :: t), hr, List.reverse_cons]
      have hb : (a :: t).getLast? = some b := by
        rw [hat, List.getLast?_append_cons, List.getLast?_singleton]
      have hbs : goIsSpace b = false := h2 b hb
      rw [List.dropWhile_cons, hbs]
      simp only [Bool.false_eq_true, if_false]
      rw [← hr, List.reverse_reverse]

/-- The space-separated join that Go's `strings.Builder` accumulation in
`chunkText` produces for a group of words (a separating `' '` before every
word except the first); also the single-space concatenation of C8. -/
def joinWords : List Str → Str
  | [] => []
  | [w] => w
  | w :: ws => w ++ ' ' :: joinWords ws

theorem joinWords_cons_cons (w x : Str) (ws : List Str) :
    joinWords (w :: x :: ws) = w ++ ' ' :: joinWords (x :: ws) := rfl

theorem joinWords_ne_nil (ws : List Str) (hne : ws ≠ []) (h : ∀ w ∈ ws, goodWord w) :
    joinWords ws ≠ [] := by
  match ws with
  | [] => exact absurd rfl hne
  | [w] => exact (h w (by simp)).1
  | w :: x :: ws =>
    rw [joinWords_cons_cons]
    have hw : w ≠ [] := (h w (by simp)).1
    simp [hw]

theorem joinWords_append_single (w : Str) :
    ∀ ws : List Str, ws ≠ [] → joinWords (ws ++ [w]) = joinWords ws ++ ' ' :: w := by
  intro ws
  induction ws with
  | nil => intro h; exact absurd rfl h
  | cons x ws ih =>
    intro _
    cases ws with
    | nil => rfl
    | cons y ws =>
      have ih' := ih (by simp)
      simp only [List.cons_append] at ih' ⊢
      rw [joinWords_cons_cons x y (ws ++ [w]), joinWords_cons_cons x y ws, ih']
      simp

theorem fields_joinWords_flat : ∀ cs : List Str, fields (joinWords cs) = cs.flatMap fields := by
  intro cs
  match cs with
  | [] => simp [joinWords, fields_nil]
  | [c] => simp [joinWords]
  | c :: d :: cs =>
    rw [joinWords_cons_cons, fields_append_space, fields_joinWords_flat (d :: cs)]
    simp

theorem fields_joinWords (ws : List Str) (h : ∀ w ∈ ws, goodWord w) :
    fields (joinWords ws) = ws := by
  rw [fields_joinWords_flat]
  induction ws with
  | nil => rfl
  | cons w ws ih =>
    rw [List.flatMap_cons, fields_goodWord w (h w (by simp)),
      ih (fun u hu => h u (by simp [hu]))]
    rfl

theorem joinWords_head? (ws : List Str) (h : ∀ w ∈ ws, goodWord w) :
    ∀ c, (joinWords ws).head? = some c → goIsSpace c = false := by
  match ws with
  | [] => intro c hc; simp [joinWords] at hc
  | [w] =>
    intro c hc
    exact (h w (by simp)).2 c (mem_of_head?_eq w c hc)
  | w :: x :: ws =>
    intro c hc
    rw [joinWords_cons_cons, List.head?_append_of_ne_nil _ (h w (by simp)).1] at hc
    exact (h w (by simp)).2 c (mem_of_head?_eq w c hc)

theorem joinWords_getLast? (ws : List Str) (h : ∀ w ∈ ws, goodWord w) :
    ∀ c, (joinWords ws).getLast? = some c → goIsSpace c = false := by
  match ws with
  | [] => intro c hc; simp [joinWords] at hc
  | [w] =>
    intro c hc
    exact (h w (by simp)).2 c (mem_of_getLast?_eq w c hc)
  | w :: x :: ws =>
    intro c hc
    have hne : joinWords (x :: ws) ≠ [] :=
      joinWords_ne_nil _ (by simp) (fun u hu => h u (by simp [hu]))
    rw [joinWords_cons_cons, List.getLast?_append_of_ne_nil _ (by simp),
      show (' ' :: joinWords (x :: ws)) = [' '] ++ joinWords (x :: ws) from rfl,
      List.getLast?_append_of_ne_nil _ hne] at hc
    exact joinWords_getLast? (x :: ws) (fun u hu => h u (by simp [hu])) c hc

theorem trimSpace_joinWords (ws : List Str) (h : ∀ w ∈ ws, goodWord w) :
    trimSpace (joinWords ws) = joinWords ws :=
  trimSpace_eq_self _ (joinWords_head? ws h) (joinWords_getLast? ws h)

/-- Loop body of Go `chunkText` (document.go): greedy accumulation of words
into `cur`, flushing `TrimSpace(cur)` to `chunks` when adding the next word
would exceed `chunkSize` and `cur` is nonempty; a space is written before
every word except the first of a chunk; the final nonempty `cur` is flushed. -/
def chunkLoop (chunkSize : Nat) : List Str → Str → List Str → List Str
  | [], cur, chunks => if cur.length > 0 then chunks ++ [trimSpace cur] else chunks
  | w :: ws, cur, chunks =>
    if cur.length + w.length + 1 > chunkSize ∧ cur.length > 0 then
      chunkLoop chunkSize ws w (chunks ++ [trimSpace cur])
    else if cur.length > 0 then
      chunkLoop chunkSize ws (cur ++ ' ' :: w) chunks
    else
      chunkLoop chunkSize ws (cur ++ w) chunks

/-- Go `chunkText` (document.go:339-367): texts no longer than `chunkSize`
are returned verbatim as a single chunk; otherwise the text is split into
`strings.Fields` words and grouped greedily by `chunkLoop`. -/
def chunkText (text : Str) (chunkSize : Nat) : List Str :=
  if text.length ≤ chunkSize then [text]
  else chunkLoop chunkSize (fields text) [] []

theorem chunkLoop_flat (cs : Nat) :
    ∀ ws cws chunks : List Str,
      (∀ w ∈ ws, goodWord w) → (∀ w ∈ cws, goodWord w) →
      (chunkLoop cs ws (joinWords cws) chunks).flatMap fields
        = chunks.flatMap fields ++ cws ++ ws := by
  intro ws
  induction ws with
  | nil =>
    intro cws chunks _ hcws
    simp only [chunkLoop]
    by_cases h : (joinWords cws).length > 0
    · rw [if_pos h]
      have hne : cws ≠ [] := by
        intro hc; subst hc; simp [joinWords] at h
      rw [List.flatMap_append]
      simp [trimSpace_joinWords cws hcws, fields_joinWords cws hcws]
    · rw [if_neg h]
      have hj : joinWords cws = [] := by
        simpa [List.length_eq_zero] using h
      have hcnil : cws = [] := by
        by_contra hne
        exact joinWords_ne_nil cws hne hcws hj
      subst hcnil
      simp
  | cons w ws ih =>
    intro cws chunks hws hcws
    have hw : goodWord w := hws w (by simp)
    have hws' : ∀ u ∈ ws, goodWord u := fun u hu => hws u (by simp [hu])
    have hsing : ∀ u ∈ ([w] : List Str), goodWord u := by
      intro u hu; rw [List.mem_singleton] at hu; subst hu; exact hw
    simp only [chunkLoop]
    by_cases hflush : (joinWords cws).length + w.length + 1 > cs ∧ (joinWords cws).length > 0
    · rw [if_pos hflush]
      have happ : (chunkLoop cs ws w (chunks ++ [trimSpace (joinWords cws)])).flatMap fields
          = (chunks ++ [trimSpace (joinWords cws)]).flatMap fields ++ [w] ++ ws :=
        ih [w] (chunks ++ [trimSpace (joinWords cws)]) hws' hsing
      rw [happ, List.flatMap_append]
      simp [trimSpace_joinWords cws hcws, fields_joinWords cws hcws, List.append_assoc]
    · rw [if_neg hflush]
      by_cases hcur : (joinWords cws).length > 0
      · rw [if_pos hcur]
        have hne : cws ≠ [] := by
          intro hc; subst hc; simp [joinWords] at hcur
        have hcws' : ∀ u ∈ cws ++ [w], goodWord u := by
          intro u hu
          rcases List.mem_append.mp hu with h | h
          · exact hcws u h
          · rw [List.mem_singleton] at h; subst h; exact hw
        have hj : joinWords cws ++ ' ' :: w = joinWords (cws ++ [w]) :=
          (joinWords_append_single w cws hne).symm
        rw [hj, ih (cws ++ [w]) chunks hws' hcws']
        simp [List.append_assoc]
      · rw [if_neg hcur]
        have hj : joinWords cws = [] := by
          simpa [List.length_eq_zero] using hcur
        have hcnil : cws = [] := by
          by_contra hne
          exact joinWords_ne_nil cws hne hcws hj
        subst hcnil
        have happ : (chunkLoop cs ws (joinWords [] ++ w) chunks).flatMap fields
            = chunks.flatMap fields ++ [w] ++ ws :=
          ih [w] chunks hws' hsing
        rw [happ]
        simp

theorem chunkLoop_mem (cs : Nat) (W : List Str) :
    ∀ ws cws chunks : List Str,
      (∀ w ∈ ws, goodWord w ∧ w ∈ W) →
      (∀ w ∈ cws, goodWord w ∧ w ∈ W) →
      ((joinWords cws).length ≤ cs ∨ ∃ u, cws = [u]) →
      (∀ ch ∈ chunks, ch.length ≤ cs ∨ ch ∈ W) →
      ∀ ch ∈ chunkLoop cs ws (joinWords cws) chunks, ch.length ≤ cs ∨ ch ∈ W := by
  intro ws
  induction ws with
  | nil =>
    intro cws chunks _ hcws hbound hchunks
    simp only [chunkLoop]
    by_cases h : (joinWords cws).length > 0
    · rw [if_pos h]
      intro ch hch
      rcases List.mem_append.mp hch with hm | hm
      · exact hchunks ch hm
      · rw [List.mem_singleton] at hm
        subst hm
        rw [trimSpace_joinWords cws (fun u hu => (hcws u hu).1)]
        rcases hbound with hb | ⟨u, hb⟩
        · exact Or.inl hb
        · subst hb
          exact Or.inr (by simpa [joinWords] using (hcws u (by simp)).2)
    · rw [if_neg h]
      exact hchunks
  | cons w ws ih =>
    intro cws chunks hws hcws hbound hchunks
    have hw : goodWord w ∧ w ∈ W := hws w (by simp)
    have hws' : ∀ u ∈ ws, goodWord u ∧ u ∈ W := fun u hu => hws u (by simp [hu])
    have hsing : ∀ u ∈ ([w] : List Str), goodWord u ∧ u ∈ W := by
      intro u hu; rw [List.mem_singleton] at hu; subst hu; exact hw
    simp only [chunkLoop]
    by_cases hflush : (joinWords cws).length + w.length + 1 > cs ∧ (joinWords cws).length > 0
    · rw [if_pos hflush]
      have hchunks' : ∀ ch ∈ chunks ++ [trimSpace (joinWords cws)], ch.length ≤ cs ∨ ch ∈ W := by
        intro ch hch
        rcases List.mem_append.mp hch with hm | hm
        · exact hchunks ch hm
        · rw [List.mem_singleton] at hm
          subst hm
          rw [trimSpace_joinWords cws (fun u hu => (hcws u hu).1)]
          rcases hbound with hb | ⟨u, hb⟩
          · exact Or.inl hb
          · subst hb
            exact Or.inr (by simpa [joinWords] using (hcws u (by simp)).2)
      have hstep : ∀ ch ∈ chunkLoop cs ws (joinWords [w]) (chunks ++ [trimSpace (joinWords cws)]),
          ch.length ≤ cs ∨ ch ∈ W :=
        ih [w] (chunks ++ [trimSpace (joinWords cws)]) hws' hsing (Or.inr ⟨w, rfl⟩) hchunks'
      exact hstep
    · rw [if_neg hflush]
      by_cases hcur : (joinWords cws).length > 0
      · rw [if_pos hcur]
        have hne : cws ≠ [] := by
          intro hc; subst hc; simp [joinWords] at hcur
        have hcws' : ∀ u ∈ cws ++ [w], goodWord u ∧ u ∈ W := by
          intro u hu
          rcases List.mem_append.mp hu with h | h
          · exact hcws u h
          · rw [List.mem_singleton] at h; subst h; exact hw
        have hfit : (joinWords cws).length + w.length + 1 ≤ cs := by
          rcases Nat.lt_or_ge cs ((joinWords cws).length + w.length + 1) with hlt | hge
          · exact absurd ⟨hlt, hcur⟩ hflush
          · exact hge
        have hlen : (joinWords (cws ++ [w])).length ≤ cs := by
          rw [joinWords_append_single w cws hne]
          simp only [List.length_append, List.length_cons]
          omega
        have hj : joinWords cws ++ ' ' :: w = joinWords (cws ++ [w]) :=
          (joinWords_append_single w cws hne).symm
        rw [hj]
        exact ih (cws ++ [w]) chunks hws' hcws' (Or.inl hlen) hchunks
      · rw [if_neg hcur]
        have hj : joinWords cws = [] := by
          simpa [List.length_eq_zero] using hcur
        have hstep : ∀ ch ∈ chunkLoop cs ws (joinWords cws ++ w) chunks, ch.length ≤ cs ∨ ch ∈ W := by
          rw [hj]
          have : ∀ ch ∈ chunkLoop cs ws (joinWords [w]) chunks, ch.length ≤ cs ∨ ch ∈ W :=
            ih [w] chunks hws' hsing (Or.inr ⟨w, rfl⟩) hchunks
          simpa [joinWords] using this
        exact hstep

theorem chunkText_flat (text : Str) (cs : Nat) :
    (chunkText text cs).flatMap fields = fields text := by
  unfold chunkText
  by_cases h : text.length ≤ cs
  · rw [if_pos h]; simp
  · rw [if_neg h]
    have hmain : (chunkLoop cs (fields text) (joinWords []) []).flatMap fields
        = ([] : List Str).flatMap fields ++ [] ++ fields text :=
      chunkLoop_flat cs (fields text) [] [] (fields_good text) (by simp)
    simpa [joinWords] using hmain

theorem chunkText_mem (text : Str) (cs : Nat) :
    ∀ ch ∈ chunkText text cs, ch.length ≤ cs ∨ ch ∈ fields text := by
  unfold chunkText
  by_cases h : text.length ≤ cs
  · rw [if_pos h]
    intro ch hch
    rw [List.mem_singleton] at hch
    subst hch
    exact Or.inl h
  · rw [if_neg h]
    have hmain : ∀ ch ∈ chunkLoop cs (fields text) (joinWords []) [],
        ch.length ≤ cs ∨ ch ∈ fields text :=
      chunkLoop_mem cs (fields text) (fields text) [] []
        (fun w hw => ⟨fields_good text w hw, hw⟩) (by simp)
        (Or.inl (by simp [joinWords])) (by simp)
    simpa [joinWords] using hmain

def sumLen (ws : List Str) : Nat := (ws.map List.length).sum

theorem sumLen_splitBy_le (p : Char → Bool) :
    ∀ s : Str, sumLen (splitBy p s) ≤ s.length := by
  intro s
  induction s with
  | nil => simp [splitBy, sumLen]
  | cons a s ih =>
    by_cases ha : p a = true
    · simp only [splitBy, ha, if_true, sumLen, List.map_cons, List.sum_cons,
        List.length_cons, List.length_nil] at ih ⊢
      omega
    · simp only [splitBy, ha, Bool.false_eq_true, if_false]
      cases h : splitBy p s with
      | nil => exact absurd h (splitBy_ne_nil p s)
      | cons t ts =>
        rw [h] at ih
        simp only [sumLen, List.map_cons, List.sum_cons, List.length_cons] at ih ⊢
        omega

theorem sumLen_fields_le (s : Str) : sumLen (fields s) ≤ s.length := by
  have hsub : List.Sublist (fields s) (splitBy goIsSpace s) := List.filter_sublist _
  have hmap : List.Sublist ((fields s).map List.length) ((splitBy goIsSpace s).map List.length) :=
    hsub.map List.length
  calc sumLen (fields s) ≤ sumLen (splitBy goIsSpace s) :=
        hmap.sum_le_sum (fun a _ => Nat.zero_le a)
    _ ≤ s.length := sumLen_splitBy_le goIsSpace s

theorem chunkText_two_chunks (text : Str) (cs : Nat)
    (hbig : cs < sumLen (fields text))
    (hwords : ∀ w ∈ fields text, w.length + 1 ≤ cs) :
    2 ≤ (chunkText text cs).length := by
  match h : chunkText text cs with
  | [] =>
    exfalso
    have hflat := chunkText_flat text cs
    rw [h] at hflat
    simp at hflat
    rw [hflat] at hbig
    simp [sumLen, fields_nil] at hbig
  | [c] =>
    exfalso
    have hflat := chunkText_flat text cs
    rw [h] at hflat
    simp at hflat
    have hm := chunkText_mem text cs c (by rw [h]; simp)
    have hlen : c.length ≤ cs := by
      rcases hm with hm | hm
      · exact hm
      · have := hwords c hm
        omega
    have hs := sumLen_fields_le c
    rw [hflat] at hs
    omega
  | a :: b :: l => simp

theorem chunkLoop_nil_pos (cs : Nat) (cur : Str) (chunks : List Str) (h : 0 < cur.length) :
    chunkLoop cs [] cur chunks = chunks ++ [trimSpace cur] := by
  simp [chunkLoop, h]

theorem chunkLoop_cons_empty (cs : Nat) (w : Str) (ws : List Str) (chunks : List Str) :
    chunkLoop cs (w :: ws) [] chunks = chunkLoop cs ws w chunks := by
  simp [chunkLoop]

theorem chunkLoop_cons_flush (cs : Nat) (w : Str) (ws : List Str) (cur : Str)
    (chunks : List Str) (h1 : cs < cur.length + w.length + 1) (h2 : 0 < cur.length) :
    chunkLoop cs (w :: ws) cur chunks = chunkLoop cs ws w (chunks ++ [trimSpace cur]) := by
  simp only [chunkLoop]
  rw [if_pos ⟨h1, h2⟩]

theorem trimSpace_goodWord (w : Str) (h : goodWord w) : trimSpace w = w :=
  trimSpace_joinWords [w] (by intro u hu; rw [List.mem_singleton] at hu; subst hu; exact h)

theorem chunkText_single_word (w : Str) (cs : Nat) (hw : goodWord w) (hlen : cs < w.length) :
    chunkText w cs = [w] := by
  unfold chunkText
  rw [if_neg (by omega), fields_goodWord w hw, chunkLoop_cons_empty,
    chunkLoop_nil_pos cs w [] (by omega), trimSpace_goodWord w hw]
  rfl

theorem chunkText_two_words (a b : Str) (cs : Nat) (ha : goodWord a) (hb : goodWord b)
    (hflush : cs < a.length + b.length + 1) :
    chunkText (a ++ ' ' :: b) cs = [a, b] := by
  have halen : 0 < a.length := List.length_pos.mpr ha.1
  have hblen : 0 < b.length := List.length_pos.mpr hb.1
  unfold chunkText
  rw [if_neg (by simp only [List.length_append, List.length_cons]; omega),
    fields_append_space, fields_goodWord a ha, fields_goodWord b hb]
  show chunkLoop cs (a :: [b]) [] [] = [a, b]
  rw [chunkLoop_cons_empty, chunkLoop_cons_flush cs b [] a [] (by omega) halen,
    chunkLoop_nil_pos cs b _ hblen, trimSpace_goodWord a ha, trimSpace_goodWord b hb]
  rfl

/-- The C8 test fixture: `"Hello world. "` repeated. -/
def repeatStr : Nat → Str → Str
  | 0, _ => []
  | n + 1, s => s ++ repeatStr n s

def helloText : Str := repeatStr 500 (("Hello world. ").toList)

/-- The word list that `strings.Fields` extracts from `repeatStr n "Hello world. "`. -/
def repeatWords : Nat → List Str
  | 0 => []
  | n + 1 => ("Hello").toList :: ("world.").toList :: repeatWords n

theorem fields_repeatStr_hello :
    ∀ n, fields (repeatStr n (("Hello world. ").toList)) = repeatWords n := by
  intro n
  induction n with
  | zero => exact fields_nil
  | succ n ih =>
    have hsplit : repeatStr (n + 1) (("Hello world. ").toList)
        = ("Hello").toList ++ ' ' :: (("world.").toList ++ ' ' :: repeatStr n (("Hello world. ").toList)) := rfl
    rw [hsplit, fields_append_space, fields_append_space,
      fields_goodWord (("Hello").toList) (by constructor <;> decide),
      fields_goodWord (("world.").toList) (by constructor <;> decide), ih]
    rfl

theorem repeatWords_sumLen : ∀ n, sumLen (repeatWords n) = 11 * n := by
  intro n
  induction n with
  | zero => rfl
  | succ n ih =>
    simp only [repeatWords, sumLen, List.map_cons, List.sum_cons,
      show (("Hello").toList).length = 5 from rfl,
      show (("world.").toList).length = 6 from rfl] at ih ⊢
    omega

theorem repeatWords_short : ∀ n, ∀ w ∈ repeatWords n, w.length + 1 ≤ 1000 := by
  intro n
  induction n with
  | zero => simp [repeatWords]
  | succ n ih =>
    intro w hw
    rcases List.mem_cons.mp hw with h | hw
    · subst h; decide
    rcases List.mem_cons.mp hw with h | hw
    · subst h; decide
    · exact ih w hw

theorem replicate_goodWord (n : Nat) (c : Char) (hn : 0 < n) (hc : goIsSpace c = false) :
    goodWord (List.replicate n c) := by
  constructor
  · intro h
    have hlen : (List.replicate n c).length = 0 := by rw [h]; rfl
    rw [List.length_replicate] at hlen
    omega
  · intro d hd
    rw [List.eq_of_mem_replicate hd]
    exact hc

/-- C7 counterexample: the claim "each chunk has length at most 1000" fails on
the concrete input of 1001 copies of `'a'` (longer than the chunk size, and a
single 1001-character word): `chunkText` emits that word as one oversized
chunk, because the flush in the loop only fires when `cur` is nonempty. -/
theorem chunkText_oversize_chunk_cex :
    ¬ ∀ ch ∈ chunkText (List.replicate 1001 'a') 1000, ch.length ≤ 1000 := by
  intro h
  have heval : chunkText (List.replicate 1001 'a') 1000 = [List.replicate 1001 'a'] :=
    chunkText_single_word _ 1000 (replicate_goodWord 1001 'a' (by omega) (by decide))
      (by rw [List.length_replicate]; omega)
  have hle := h (List.replicate 1001 'a') (by rw [heval]; exact List.mem_singleton.mpr rfl)
  rw [List.length_replicate] at hle
  omega

/-- C7 (amended): `chunkText text 1000` splits on word boundaries only and
preserves word order (flattening the chunks back through `strings.Fields`
recovers exactly the words of the input), and every chunk either has length
at most 1000 or is a single input word longer than the chunk size. -/
theorem chunkText_word_boundaries (text : Str) :
    (∀ ch ∈ chunkText text 1000, ch.length ≤ 1000 ∨ ch ∈ fields text)
    ∧ (chunkText text 1000).flatMap fields = fields text :=
  ⟨chunkText_mem text 1000, chunkText_flat text 1000⟩

theorem chunkText_word_boundaries_witness :
    ((("ab").toList).length ≤ 1000 ∨ ("ab").toList ∈ fields (("ab").toList))
    ∧ (chunkText (("ab").toList) 1000).flatMap fields = fields (("ab").toList) :=
  ⟨(chunkText_word_boundaries (("ab").toList)).1 (("ab").toList) (by decide),
   (chunkText_word_boundaries (("ab").toList)).2⟩

/-- C8: for every text, joining the chunks of `chunkText text 1000` with single
spaces yields a string with exactly the original word sequence; and the
fixture `"Hello world. "` repeated 500 times (6500 characters, beyond the
chunk size) yields at least two chunks, each at most 1000 characters long. -/
theorem chunkText_roundtrip :
    (∀ text : Str, fields (joinWords (chunkText text 1000)) = fields text)
    ∧ 2 ≤ (chunkText helloText 1000).length
    ∧ (chunkText helloText 1000).all (fun ch => decide (ch.length ≤ 1000)) = true := by
  refine ⟨fun text => ?_, ?_, ?_⟩
  · rw [fields_joinWords_flat, chunkText_flat]
  · apply chunkText_two_chunks
    · rw [show fields helloText = repeatWords 500 from fields_repeatStr_hello 500,
        repeatWords_sumLen]
      omega
    · rw [show fields helloText = repeatWords 500 from fields_repeatStr_hello 500]
      exact repeatWords_short 500
  · rw [List.all_eq_true]
    intro ch hch
    rw [decide_eq_true_eq]
    rcases chunkText_mem helloText 1000 ch hch with h | h
    · exact h
    · rw [show fields helloText = repeatWords 500 from fields_repeatStr_hello 500] at h
      have := repeatWords_short 500 ch h
      omega

/-- C10: a text of length at most the chunk size is returned verbatim as the
single chunk (including empty and whitespace-only texts), while a
whitespace-only text longer than the chunk size produces no chunks at all
(its `strings.Fields` word list is empty). -/
theorem chunkText_small_input (text : Str) :
    (text.length ≤ 1000 → chunkText text 1000 = [text])
    ∧ ((∀ c ∈ text, goIsSpace c = true) → 1000 < text.length → chunkText text 1000 = []) := by
  constructor
  · intro h
    unfold chunkText
    rw [if_pos h]
  · intro hsp hlen
    unfold chunkText
    rw [if_neg (by omega), fields_all_space text hsp]
    simp [chunkLoop]

theorem chunkText_small_input_witness :
    chunkText (("a b").toList) 1000 = [("a b").toList]
    ∧ chunkText (List.replicate 1001 ' ') 1000 = [] :=
  ⟨(chunkText_small_input (("a b").toList)).1 (by decide),
   (chunkText_small_input (List.replicate 1001 ' ')).2
     (fun c hc => by rw [List.eq_of_mem_replicate hc]; decide)
     (by rw [List.length_replicate]; omega)⟩

/-- A row of the `documents` table (models.Document: id, user_id, file_name,
storage_path nullable, uploaded_at; timestamps are not modelled). -/
structure Document where
  id : Str
  userId : Str
  fileName : Str
  storagePath : Option Str
deriving DecidableEq

/-- A row of the `document_chunks` table (id, document_id, chunk_index,
content; the unused embedding column and created_at are not modelled). -/
structure Chunk where
  id : Str
  documentId : Str
  chunkIndex : Nat
  content : Str
deriving DecidableEq

/-- A row of the `chat_history` table (id, document_id, user_id,
message_type, message_content; the timestamp column is not modelled, rows
keep insertion order). -/
structure ChatMessage where
  id : Str
  documentId : Str
  userId : Str
  messageType : Str
  messageContent : Str
deriving DecidableEq

/-- The relational store. -/
structure DbState where
  documents : List Document
  chunks : List Chunk
  chatHistory : List ChatMessage
deriving DecidableEq

def notFoundMsg : Str := ("document not found").toList

/-- Go `GetDocument` (document.go:144-161): a single-row query
`WHERE id = $1 AND user_id = $2`; `sql.ErrNoRows` becomes the error
"document not found".  A transient scan failure is not modelled here:
reads over the in-memory state are total. -/
def getDocument (db : DbState) (docID userID : Str) : Except Str Document :=
  match db.documents.find? (fun d => d.id == docID && d.userId == userID) with
  | some d => Except.ok d
  | none => Except.error notFoundMsg

/-- Insertion step of the `ORDER BY chunk_index` model (stable). -/
def insertByIndex (c : Chunk) : List Chunk → List Chunk
  | [] => [c]
  | d :: ds => if c.chunkIndex ≤ d.chunkIndex then c :: d :: ds else d :: insertByIndex c ds

/-- Stable sort by `chunk_index`, modelling the SQL `ORDER BY chunk_index`. -/
def sortChunks : List Chunk → List Chunk
  | [] => []
  | c :: cs => insertByIndex c (sortChunks cs)

/-- Go `GetDocumentChunks` (document.go:197-217):
`SELECT ... WHERE document_id = $1 ORDER BY chunk_index`. -/
def getDocumentChunks (db : DbState) (docID : Str) : List Chunk :=
  sortChunks (db.chunks.filter (fun c => c.documentId == docID))

theorem length_insertByIndex (c : Chunk) :
    ∀ l : List Chunk, (insertByIndex c l).length = l.length + 1 := by
  intro l
  induction l with
  | nil => rfl
  | cons d ds ih =>
    simp only [insertByIndex]
    split
    · simp
    · simp [ih]

theorem length_sortChunks : ∀ l : List Chunk, (sortChunks l).length = l.length := by
  intro l
  induction l with
  | nil => rfl
  | cons c cs ih => simp [sortChunks, length_insertByIndex, ih]

theorem sortChunks_nil_iff (l : List Chunk) : sortChunks l = [] ↔ l = [] := by
  constructor
  · intro h
    have := length_sortChunks l
    rw [h] at this
    exact List.length_eq_zero.mp this.symm
  · intro h; subst h; rfl

theorem insertByIndex_le (c : Chunk) (l : List Chunk)
    (h : ∀ d ∈ l, c.chunkIndex ≤ d.chunkIndex) : insertByIndex c l = c :: l := by
  cases l with
  | nil => rfl
  | cons d ds => simp [insertByIndex, h d (by simp)]

theorem sortChunks_eq_self :
    ∀ l : List Chunk, l.Pairwise (fun a b => a.chunkIndex ≤ b.chunkIndex) → sortChunks l = l := by
  intro l
  induction l with
  | nil => intro _; rfl
  | cons c cs ih =>
    intro hp
    rw [List.pairwise_cons] at hp
    simp only [sortChunks]
    rw [ih hp.2, insertByIndex_le c cs hp.1]

/-- Go `filepath.Ext`: the suffix starting at the final dot, `""` if none. -/
def fileExt (s : Str) : Str :=
  let revAfter := s.reverse.takeWhile (fun c => !(c == '.'))
  if revAfter.length == s.length then [] else '.' :: revAfter.reverse

/-- The placeholder text substituted when extraction fails or yields only
whitespace (document.go:283). -/
def extractionFailedText (fileName : Str) : Str :=
  ("Text extraction failed for file ").toList ++ fileName
    ++ (". Content not available for chat.").toList

/-- The synthetic fallback chunk content (document.go:306). -/
def fallbackText (fileName : Str) : Str :=
  ("This is document '").toList ++ fileName
    ++ ("' that was uploaded successfully. The document is ready for analysis and questions, although detailed content extraction may be limited.").toList

/-- Outcomes of the external steps taken by one processing run.
`insertChunkOk i` is whether the `INSERT INTO document_chunks` for
chunk index `i` succeeds; `fallbackInsertOk` the same for the fallback
insert; `downloadResult` is the blob download (`none` = failure);
`pdfExtract` the result of `extractTextFromPDF` (`none` = error), which
wraps an external PDF library. -/
structure ProcEnv where
  storageInit : Bool
  downloadResult : Option Str
  pdfExtract : Option Str
  insertChunkOk : Nat → Bool
  chunkIds : Nat → Str
  fallbackChunkId : Str
  fallbackInsertOk : Bool

/-- The chunk-storing loop of `processDocumentContent` (document.go:291-302):
chunk `i` is inserted with `chunk_index i`; a failed insert is logged and
skipped. -/
def storeChunks (env : ProcEnv) (docId : Str) : List Str → Nat → DbState → DbState
  | [], _, db => db
  | ch :: rest, i, db =>
    let db' := if env.insertChunkOk i then
        { db with chunks := db.chunks ++ [⟨env.chunkIds i, docId, i, ch⟩] }
      else db
    storeChunks env docId rest (i + 1) db'

/-- Main body of Go `processDocumentContent` (document.go:219-303), without
the deferred block: require a storage path and an initialized storage
service, download, dispatch extraction on the (lowercased) file extension,
substitute the placeholder text when extraction errored or produced only
whitespace, chunk at size 1000 and store the chunks. -/
def processMain (env : ProcEnv) (db : DbState) (doc : Document) : DbState :=
  match doc.storagePath with
  | none => db
  | some _ =>
    if !env.storageInit then db
    else
      match env.downloadResult with
      | none => db
      | some content =>
        let ext := (fileExt doc.fileName).map Char.toLower
        let te : Str × Bool :=
          if ext = (".pdf").toList then
            match env.pdfExtract with
            | none => ([], true)
            | some t => (t, false)
          else if ext = (".txt").toList then (content, false)
          else ([], false)
        let text := if te.2 || (trimSpace te.1).isEmpty then
            extractionFailedText doc.fileName
          else te.1
        storeChunks env doc.id (chunkText text 1000) 0 db

/-- Go `createFallbackChunk` (document.go:305-316): one insert with
`chunk_index 0`; an insert error is only logged. -/
def createFallbackChunk (env : ProcEnv) (db : DbState) (doc : Document) : DbState :=
  if env.fallbackInsertOk then
    { db with chunks := db.chunks ++ [⟨env.fallbackChunkId, doc.id, 0, fallbackText doc.fileName⟩] }
  else db

/-- The deferred block of `processDocumentContent` (document.go:223-235):
after the run, re-read the chunks; if none, create the fallback chunk. -/
def deferredStep (env : ProcEnv) (db : DbState) (doc : Document) : DbState :=
  if (getDocumentChunks db doc.id).length = 0 then createFallbackChunk env db doc
  else db

/-- Go `processDocumentContent`: the main body followed by the deferred
fallback step (which runs on every exit path of the Go function). -/
def processDocumentContent (env : ProcEnv) (db : DbState) (doc : Document) : DbState :=
  deferredStep env (processMain env db doc) doc

/-- Go `ReprocessDocument` (document.go:370-387): ownership check through
`GetDocument`, best-effort delete of existing chunks (`deleteOk` is whether
the `DELETE` succeeds; on failure only a warning is printed and the run
continues), then a synchronous processing run. -/
def reprocessDocument (env : ProcEnv) (deleteOk : Bool) (db : DbState)
    (docID userID : Str) : Except Str Unit × DbState :=
  match getDocument db docID userID with
  | Except.error e => (Except.error e, db)
  | Except.ok doc =>
    let db' := if deleteOk then
        { db with chunks := db.chunks.filter (fun c => !(c.documentId == docID)) }
      else db
    (Except.ok (), processDocumentContent env db' doc)

/-- Concrete fixture document for the processing counterexamples. -/
def docX : Document := ⟨("d1").toList, ("u1").toList, ("f.txt").toList, some (("sp").toList)⟩

/-- Environment in which the blob download fails and the fallback insert also
fails (every `INSERT` is rejected by the database). -/
def envNoFallback : ProcEnv :=
  ⟨true, none, none, fun _ => false, fun _ => ("c1").toList, ("fb").toList, false⟩

/-- C2 counterexample: when the download fails (so no chunk is stored) and the
fallback-chunk `INSERT` itself fails, the run completes with the deferred step
executed, yet the chunk count stays 0 — the fallback is synthesized but not
persisted, so "chunk count is at least 1 afterwards" is false for this run. -/
theorem processDocument_fallback_failure_cex :
    ¬ 1 ≤ (getDocumentChunks (processDocumentContent envNoFallback ⟨[], [], []⟩ docX) (docX.id)).length := by
  decide

theorem getDocumentChunks_set_chunks (db : DbState) (l : List Chunk) (docID : Str) :
    getDocumentChunks { db with chunks := l } docID
      = sortChunks (l.filter (fun c => c.documentId == docID)) := rfl

theorem filter_docId_append_self (l : List Chunk) (docID : Str) (c : Chunk)
    (hc : c.documentId = docID) :
    (l ++ [c]).filter (fun d => d.documentId == docID)
      = l.filter (fun d => d.documentId == docID) ++ [c] := by
  rw [List.filter_append]
  congr 1
  simp [List.filter, hc]

/-- C2 (amended): provided the fallback `INSERT` itself succeeds, every
completed processing run leaves at least one chunk for the document; and if
the main run stored no chunk at all, the deferred step persists exactly the
one synthetic fallback chunk. -/
theorem processDocument_chunk_count (env : ProcEnv) (db : DbState) (doc : Document)
    (hfb : env.fallbackInsertOk = true) :
    1 ≤ (getDocumentChunks (processDocumentContent env db doc) (doc.id)).length
    ∧ (getDocumentChunks (processMain env db doc) (doc.id) = [] →
        (getDocumentChunks (processDocumentContent env db doc) (doc.id)).length = 1) := by
  set db1 := processMain env db doc with hdb1
  have hfall : ∀ hmain : getDocumentChunks db1 (doc.id) = [],
      (getDocumentChunks (processDocumentContent env db doc) (doc.id)).length = 1 := by
    intro hmain
    have hflt : db1.chunks.filter (fun c => c.documentId == doc.id) = [] := by
      have := hmain
      unfold getDocumentChunks at this
      exact (sortChunks_nil_iff _).mp this
    unfold processDocumentContent deferredStep
    rw [← hdb1, hmain]
    rw [if_pos (show (List.length ([] : List Chunk)) = 0 from rfl)]
    unfold createFallbackChunk
    rw [hfb, if_pos (rfl : (true : Bool) = true)]
    rw [getDocumentChunks_set_chunks,
      filter_docId_append_self db1.chunks (doc.id)
        ⟨env.fallbackChunkId, doc.id, 0, fallbackText doc.fileName⟩ rfl,
      hflt]
    rfl
  constructor
  · by_cases hmain : getDocumentChunks db1 (doc.id) = []
    · rw [hfall hmain]
    · unfold processDocumentContent deferredStep
      rw [← hdb1]
      have hlen : (getDocumentChunks db1 (doc.id)).length ≠ 0 := by
        intro h
        exact hmain (List.length_eq_zero.mp h)
      rw [if_neg hlen]
      omega
  · exact hfall

/-- Environment in which the download fails but the fallback insert succeeds. -/
def envFallbackOk : ProcEnv :=
  ⟨true, none, none, fun _ => false, fun _ => ("c1").toList, ("fb").toList, true⟩

theorem processDocument_chunk_count_witness :
    1 ≤ (getDocumentChunks (processDocumentContent envFallbackOk ⟨[], [], []⟩ docX) (docX.id)).length
    ∧ (getDocumentChunks (processDocumentContent envFallbackOk ⟨[], [], []⟩ docX) (docX.id)).length = 1 :=
  ⟨(processDocument_chunk_count envFallbackOk ⟨[], [], []⟩ docX rfl).1,
   (processDocument_chunk_count envFallbackOk ⟨[], [], []⟩ docX rfl).2 (by decide)⟩

/-- The chunk rows the store loop writes when every insert succeeds:
row `i` carries `chunk_index i`. -/
def chunkRows (env : ProcEnv) (docId : Str) : List Str → Nat → List Chunk
  | [], _ => []
  | ch :: rest, i => ⟨env.chunkIds i, docId, i, ch⟩ :: chunkRows env docId rest (i + 1)

theorem storeChunks_chunks (env : ProcEnv) (docId : Str)
    (hall : ∀ i, env.insertChunkOk i = true) :
    ∀ (chs : List Str) (i : Nat) (db : DbState),
      (storeChunks env docId chs i db).chunks = db.chunks ++ chunkRows env docId chs i := by
  intro chs
  induction chs with
  | nil => intro i db; simp [storeChunks, chunkRows]
  | cons ch rest ih =>
    intro i db
    simp only [storeChunks, hall i, if_pos rfl]
    rw [ih (i + 1)]
    simp [chunkRows]

theorem storeChunks_documents (env : ProcEnv) (docId : Str) :
    ∀ (chs : List Str) (i : Nat) (db : DbState),
      (storeChunks env docId chs i db).documents = db.documents := by
  intro chs
  induction chs with
  | nil => intro i db; rfl
  | cons ch rest ih =>
    intro i db
    simp only [storeChunks]
    rw [ih (i + 1)]
    split <;> rfl

theorem chunkRows_filter_self (env : ProcEnv) (docId : Str) :
    ∀ (chs : List Str) (i : Nat),
      (chunkRows env docId chs i).filter (fun c => c.documentId == docId)
        = chunkRows env docId chs i := by
  intro chs
  induction chs with
  | nil => intro i; rfl
  | cons ch rest ih =>
    intro i
    simp only [chunkRows, List.filter_cons]
    rw [ih (i + 1)]
    simp

theorem chunkRows_length (env : ProcEnv) (docId : Str) :
    ∀ (chs : List Str) (i : Nat), (chunkRows env docId chs i).length = chs.length := by
  intro chs
  induction chs with
  | nil => intro i; rfl
  | cons ch rest ih => intro i; simp [chunkRows, ih (i + 1)]

theorem chunkRows_indices (env : ProcEnv) (docId : Str) :
    ∀ (chs : List Str) (i : Nat),
      (chunkRows env docId chs i).map Chunk.chunkIndex = List.range' i chs.length := by
  intro chs
  induction chs with
  | nil => intro i; rfl
  | cons ch rest ih =>
    intro i
    simp only [chunkRows, List.map_cons, List.length_cons, List.range'_succ, ih (i + 1)]

theorem chunkRows_min (env : ProcEnv) (docId : Str) :
    ∀ (chs : List Str) (i : Nat), ∀ c ∈ chunkRows env docId chs i, i ≤ c.chunkIndex := by
  intro chs
  induction chs with
  | nil => intro i c hc; simp [chunkRows] at hc
  | cons ch rest ih =>
    intro i c hc
    rcases List.mem_cons.mp hc with h | h
    · subst h; exact Nat.le_refl i
    · exact Nat.le_of_succ_le (ih (i + 1) c h)

theorem chunkRows_pairwise (env : ProcEnv) (docId : Str) :
    ∀ (chs : List Str) (i : Nat),
      (chunkRows env docId chs i).Pairwise (fun a b => a.chunkIndex ≤ b.chunkIndex) := by
  intro chs
  induction chs with
  | nil => intro i; exact List.Pairwise.nil
  | cons ch rest ih =>
    intro i
    rw [chunkRows, List.pairwise_cons]
    exact ⟨fun c hc => Nat.le_of_succ_le (chunkRows_min env docId rest (i + 1) c hc), ih (i + 1)⟩

theorem processMain_shape (env : ProcEnv) (db : DbState) (doc : Document) :
    processMain env db doc = db ∨
    ∃ text, processMain env db doc = storeChunks env doc.id (chunkText text 1000) 0 db := by
  unfold processMain
  cases doc.storagePath with
  | none => exact Or.inl rfl
  | some sp =>
    cases hsi : env.storageInit with
    | false => exact Or.inl (by simp)
    | true =>
      simp only [Bool.not_true, Bool.false_eq_true, if_false]
      cases env.downloadResult with
      | none => exact Or.inl rfl
      | some content => exact Or.inr ⟨_, rfl⟩

/-- When the run starts with no stored chunks for the document, every chunk
insert succeeds and the fallback insert would succeed, the chunk indices of
the stored rows after the run are exactly `0..n-1`. -/
theorem processDocument_fresh_indices (env : ProcEnv) (db : DbState) (doc : Document)
    (hall : ∀ i, env.insertChunkOk i = true) (hfb : env.fallbackInsertOk = true)
    (hfresh : getDocumentChunks db (doc.id) = []) :
    (getDocumentChunks (processDocumentContent env db doc) (doc.id)).map Chunk.chunkIndex
      = List.range (getDocumentChunks (processDocumentContent env db doc) (doc.id)).length := by
  have hflt : db.chunks.filter (fun c => c.documentId == doc.id) = [] := by
    have := hfresh
    unfold getDocumentChunks at this
    exact (sortChunks_nil_iff _).mp this
  have hfallback : ∀ db1 : DbState, getDocumentChunks db1 (doc.id) = [] →
      (getDocumentChunks (deferredStep env db1 doc) (doc.id)).map Chunk.chunkIndex
        = List.range (getDocumentChunks (deferredStep env db1 doc) (doc.id)).length := by
    intro db1 hmain
    have hflt1 : db1.chunks.filter (fun c => c.documentId == doc.id) = [] := by
      have := hmain
      unfold getDocumentChunks at this
      exact (sortChunks_nil_iff _).mp this
    unfold deferredStep
    rw [hmain]
    rw [if_pos (show (List.length ([] : List Chunk)) = 0 from rfl)]
    unfold createFallbackChunk
    rw [hfb, if_pos (rfl : (true : Bool) = true)]
    rw [getDocumentChunks_set_chunks,
      filter_docId_append_self db1.chunks (doc.id)
        ⟨env.fallbackChunkId, doc.id, 0, fallbackText doc.fileName⟩ rfl,
      hflt1]
    rfl
  rcases processMain_shape env db doc with hm | ⟨text, hm⟩
  · unfold processDocumentContent
    rw [hm]
    exact hfallback db hfresh
  · unfold processDocumentContent
    rw [hm]
    set rows := chunkRows env (doc.id) (chunkText text 1000) 0 with hrows
    have hchunks : (storeChunks env doc.id (chunkText text 1000) 0 db).chunks
        = db.chunks ++ rows := storeChunks_chunks env (doc.id) hall _ 0 db
    have hget : getDocumentChunks (storeChunks env doc.id (chunkText text 1000) 0 db) (doc.id)
        = rows := by
      unfold getDocumentChunks
      rw [hchunks, List.filter_append, hflt, List.nil_append, hrows,
        chunkRows_filter_self env (doc.id) (chunkText text 1000) 0,
        sortChunks_eq_self _ (chunkRows_pairwise env (doc.id) (chunkText text 1000) 0)]
    by_cases hz : rows = []
    · exact hfallback _ (by rw [hget, hz])
    · unfold deferredStep
      rw [hget]
      rw [if_neg (fun h => hz (List.length_eq_zero.mp h))]
      rw [hget, hrows, chunkRows_indices env (doc.id) (chunkText text 1000) 0,
        chunkRows_length env (doc.id) (chunkText text 1000) 0, List.range_eq_range']

theorem getDocument_ok_facts (db : DbState) (docID userID : Str) (d : Document)
    (h : getDocument db docID userID = Except.ok d) :
    d ∈ db.documents ∧ d.id = docID ∧ d.userId = userID := by
  unfold getDocument at h
  cases hf : db.documents.find? (fun x => x.id == docID && x.userId == userID) with
  | none => rw [hf] at h; cases h
  | some x =>
    rw [hf] at h
    injection h with hxd
    subst hxd
    have hmem := List.mem_of_find?_eq_some hf
    have hp := List.find?_some hf
    rw [Bool.and_eq_true, beq_iff_eq, beq_iff_eq] at hp
    exact ⟨hmem, hp.1, hp.2⟩

theorem reprocess_deleted_fresh (db : DbState) (docID : Str) :
    getDocumentChunks
      { db with chunks := db.chunks.filter (fun c => !(c.documentId == docID)) } docID = [] := by
  rw [getDocumentChunks_set_chunks, List.filter_filter]
  have hnone : (db.chunks.filter (fun c => c.documentId == docID && !(c.documentId == docID))) = [] := by
    apply List.filter_eq_nil_iff.mpr
    intro c _
    cases h : c.documentId == docID <;> simp [h]
  rw [hnone]
  rfl

/-- C3 (amended): after a processing run on a document with no stored chunks,
or after a reprocessing run whose chunk deletion succeeded, provided every
chunk insert (and the fallback insert) succeeds, the stored chunk_index
values for the document are exactly `0..n-1`: contiguous from 0, unique,
with no gaps.  (A failed individual insert leaves a gap, see the
counterexample.) -/
theorem chunk_indices_contiguous (env : ProcEnv) (db : DbState) (doc : Document)
    (docID userID : Str) (d : Document)
    (hall : ∀ i, env.insertChunkOk i = true) (hfb : env.fallbackInsertOk = true) :
    (getDocumentChunks db (doc.id) = [] →
      (getDocumentChunks (processDocumentContent env db doc) (doc.id)).map Chunk.chunkIndex
        = List.range (getDocumentChunks (processDocumentContent env db doc) (doc.id)).length)
    ∧ (getDocument db docID userID = Except.ok d →
      (getDocumentChunks ((reprocessDocument env true db docID userID).snd) docID).map Chunk.chunkIndex
        = List.range
            (getDocumentChunks ((reprocessDocument env true db docID userID).snd) docID).length) := by
  constructor
  · intro hfresh
    exact processDocument_fresh_indices env db doc hall hfb hfresh
  · intro hok
    have hfacts := getDocument_ok_facts db docID userID d hok
    unfold reprocessDocument
    rw [hok]
    dsimp only
    rw [if_pos (rfl : (true : Bool) = true)]
    rw [← hfacts.2.1]
    exact processDocument_fresh_indices env _ d hall hfb (reprocess_deleted_fresh db (d.id))

/-- All-inserts-succeed environment with a failing download. -/
def envAllOk : ProcEnv :=
  ⟨true, none, none, fun _ => true, fun _ => ("c1").toList, ("fb").toList, true⟩

/-- One document, no chunks. -/
def dbW : DbState := ⟨[⟨("d1").toList, ("u1").toList, ("f.txt").toList, none⟩], [], []⟩

def docD : Document := ⟨("d1").toList, ("u1").toList, ("f.txt").toList, none⟩

theorem chunk_indices_contiguous_witness :
    ((getDocumentChunks (processDocumentContent envAllOk dbW docD) (docD.id)).map Chunk.chunkIndex
      = List.range (getDocumentChunks (processDocumentContent envAllOk dbW docD) (docD.id)).length)
    ∧ ((getDocumentChunks ((reprocessDocument envAllOk true dbW (("d1").toList) (("u1").toList)).snd)
          (("d1").toList)).map Chunk.chunkIndex
      = List.range
          (getDocumentChunks ((reprocessDocument envAllOk true dbW (("d1").toList) (("u1").toList)).snd)
            (("d1").toList)).length) :=
  ⟨(chunk_indices_contiguous envAllOk dbW docD (("d1").toList) (("u1").toList) docD
      (fun _ => rfl) rfl).1 rfl,
   (chunk_indices_contiguous envAllOk dbW docD (("d1").toList) (("u1").toList) docD
      (fun _ => rfl) rfl).2 rfl⟩

theorem mem_dropWhile_of_not (p : Char → Bool) (s : Str) (c : Char)
    (hc : c ∈ s) (hp : p c = false) : c ∈ s.dropWhile p := by
  have hsplit : s.takeWhile p ++ s.dropWhile p = s := List.takeWhile_append_dropWhile p s
  rw [← hsplit] at hc
  rcases List.mem_append.mp hc with h | h
  · have := List.mem_takeWhile_imp h
    rw [hp] at this
    cases this
  · exact h

theorem trimSpace_ne_nil_of_mem (s : Str) (c : Char) (hc : c ∈ s)
    (hns : goIsSpace c = false) : trimSpace s ≠ [] := by
  unfold trimSpace
  intro h
  have h1 : c ∈ s.dropWhile goIsSpace := mem_dropWhile_of_not _ s c hc hns
  have h2 : c ∈ (s.dropWhile goIsSpace).reverse := List.mem_reverse.mpr h1
  have h3 : c ∈ (s.dropWhile goIsSpace).reverse.dropWhile goIsSpace :=
    mem_dropWhile_of_not _ _ c h2 hns
  rw [List.reverse_eq_nil_iff] at h
  rw [h] at h3
  cases h3

theorem isEmpty_false_of_ne_nil (l : Str) (h : l ≠ []) : l.isEmpty = false := by
  cases l with
  | nil => exact absurd rfl h
  | cons a t => rfl

/-- Evaluation of the main run on a `.txt` document whose download succeeds
and whose content has usable (non-whitespace) text. -/
theorem processMain_txt (env : ProcEnv) (db : DbState) (doc : Document) (sp content : Str)
    (hsp : doc.storagePath = some sp) (hsi : env.storageInit = true)
    (hdl : env.downloadResult = some content)
    (hext : (fileExt doc.fileName).map Char.toLower = (".txt").toList)
    (htrim : (trimSpace content).isEmpty = false) :
    processMain env db doc = storeChunks env doc.id (chunkText content 1000) 0 db := by
  unfold processMain
  rw [hsp]
  rw [hsi]
  simp only [Bool.not_true, Bool.false_eq_true, if_false]
  rw [hdl]
  dsimp only
  rw [hext]
  rw [if_neg (show ¬((".txt").toList = (".pdf").toList) from by decide),
    if_pos (rfl : (".txt").toList = (".txt").toList)]
  simp [htrim]

def cexContent : Str := List.replicate 600 'a' ++ ' ' :: List.replicate 600 'b'

/-- Environment in which the insert of chunk 0 fails and the insert of
chunk 1 succeeds. -/
def envSkip0 : ProcEnv :=
  ⟨true, some cexContent, none, fun i => i == 1, fun _ => ("c1").toList, ("fb").toList, true⟩

theorem chunkText_cexContent :
    chunkText cexContent 1000 = [List.replicate 600 'a', List.replicate 600 'b'] :=
  chunkText_two_words _ _ 1000
    (replicate_goodWord 600 'a' (by omega) (by decide))
    (replicate_goodWord 600 'b' (by omega) (by decide))
    (by rw [List.length_replicate, List.length_replicate]; omega)

theorem processDocument_cex_eval :
    processDocumentContent envSkip0 ⟨[], [], []⟩ docX
      = ⟨[], [⟨("c1").toList, ("d1").toList, 1, List.replicate 600 'b'⟩], []⟩ := by
  have htrim : (trimSpace cexContent).isEmpty = false :=
    isEmpty_false_of_ne_nil _ (trimSpace_ne_nil_of_mem cexContent 'a'
      (List.mem_append.mpr (Or.inl (List.mem_replicate.mpr ⟨by omega, rfl⟩)))
      (by decide))
  have hmain : processMain envSkip0 ⟨[], [], []⟩ docX
      = storeChunks envSkip0 (docX.id) (chunkText cexContent 1000) 0 ⟨[], [], []⟩ :=
    processMain_txt envSkip0 ⟨[], [], []⟩ docX (("sp").toList) cexContent rfl rfl rfl
      (by decide) htrim
  unfold processDocumentContent
  rw [hmain, chunkText_cexContent]
  rfl

/-- C3 counterexample: with content of two 600-character words on a fresh
document, the insert of chunk 0 fails (logged and skipped) while the insert
of chunk 1 succeeds; the run completes with exactly one stored row whose
chunk_index is 1, so the stored indices are [1], not the contiguous 0..n-1
(= [0]) the claim requires. -/
theorem chunk_indices_gap_cex :
    ¬ ((getDocumentChunks (processDocumentContent envSkip0 ⟨[], [], []⟩ docX) (docX.id)).map
          Chunk.chunkIndex
        = List.range
            (getDocumentChunks (processDocumentContent envSkip0 ⟨[], [], []⟩ docX) (docX.id)).length) := by
  rw [processDocument_cex_eval,
    show getDocumentChunks
        ⟨[], [⟨("c1").toList, ("d1").toList, 1, List.replicate 600 'b'⟩], []⟩ (docX.id)
      = [⟨("c1").toList, ("d1").toList, 1, List.replicate 600 'b'⟩] from rfl]
  intro h
  have h1 : ([1] : List Nat) = [0] := h
  cases h1

def stillProcessingMsg : Str :=
  ("document is still being processed, please try again in a moment").toList

/-- Outcomes of the external steps taken by one `SendMessage` call:
the generated row ids, the user-turn and AI-turn `INSERT` outcomes
(`none` = success, `some e` = the database error), and the
`GenerateInsight` model call outcome. -/
structure ChatEnv where
  userMsgId : Str
  aiMsgId : Str
  insertUserErr : Option Str
  insertAiErr : Option Str
  aiResult : Except Str Str

/-- Go `SendMessage` (chat.go:65-125): validate the three inputs, check
ownership through `GetDocument`, store the user turn, read the chunks
(still-processing check), call the model, store the AI turn.  Each failing
step returns the wrapped error and leaves the state reached so far. -/
def sendMessage (env : ChatEnv) (db : DbState) (docID userID message : Str) :
    Except Str Str × DbState :=
  if (trimSpace docID).isEmpty then (Except.error (("documentID cannot be empty").toList), db)
  else if (trimSpace userID).isEmpty then (Except.error (("userID cannot be empty").toList), db)
  else if (trimSpace message).isEmpty then (Except.error (("message cannot be empty").toList), db)
  else
    match getDocument db docID userID with
    | Except.error e => (Except.error e, db)
    | Except.ok _ =>
      match env.insertUserErr with
      | some e => (Except.error (("failed to store user message: ").toList ++ e), db)
      | none =>
        let db1 : DbState := { db with chatHistory :=
          db.chatHistory ++ [⟨env.userMsgId, docID, userID, ("user").toList, message⟩] }
        if (getDocumentChunks db1 docID).length = 0 then (Except.error stillProcessingMsg, db1)
        else
          match env.aiResult with
          | Except.error e =>
            (Except.error (("failed to generate AI response: ").toList ++ e), db1)
          | Except.ok aiResponse =>
            match env.insertAiErr with
            | some e => (Except.error (("failed to store AI response: ").toList ++ e), db1)
            | none =>
              (Except.ok aiResponse,
               { db1 with chatHistory :=
                 db1.chatHistory ++ [⟨env.aiMsgId, docID, userID, ("ai").toList, aiResponse⟩] })

/-- Go `strings.Contains(s, sub)`: `sub` occurs as a contiguous substring. -/
def strContains : Str → Str → Bool
  | [], sub => sub.isEmpty
  | c :: t, sub => sub.isPrefixOf (c :: t) || strContains t sub

theorem strContains_append_left (sub : Str) :
    ∀ x s : Str, strContains s sub = true → strContains (x ++ s) sub = true := by
  intro x
  induction x with
  | nil => intro s h; exact h
  | cons c t ih =>
    intro s h
    simp only [List.cons_append, strContains, List.append_eq]
    rw [ih s h]
    simp

/-- The `SendMessage` handler's error mapping (handlers.go:322-330):
errors containing "not found" become 404, errors containing
"still being processed" become 202, anything else 500. -/
def sendMessageStatus (e : Str) : Nat :=
  if strContains e (("not found").toList) then 404
  else if strContains e (("still being processed").toList) then 202
  else 500

theorem getDocumentChunks_set_chat (db : DbState) (l : List ChatMessage) (docID : Str) :
    getDocumentChunks { db with chatHistory := l } docID = getDocumentChunks db docID := rfl

/-- C4: a `SendMessage` call on an owned document with zero chunks (and a
successful user-turn insert) fails with exactly the "still processing"
message, which the handler maps to HTTP 202 (not a generic 500), and adds
no AI-turn row to chat_history. -/
theorem sendMessage_zero_chunks (env : ChatEnv) (db : DbState)
    (docID userID message : Str) (d : Document)
    (h1 : (trimSpace docID).isEmpty = false)
    (h2 : (trimSpace userID).isEmpty = false)
    (h3 : (trimSpace message).isEmpty = false)
    (hdoc : getDocument db docID userID = Except.ok d)
    (hins : env.insertUserErr = none)
    (hchunks : getDocumentChunks db docID = []) :
    (sendMessage env db docID userID message).fst = Except.error stillProcessingMsg
    ∧ sendMessageStatus stillProcessingMsg = 202
    ∧ (sendMessage env db docID userID message).snd.chatHistory.filter
        (fun m => m.messageType == ("ai").toList)
      = db.chatHistory.filter (fun m => m.messageType == ("ai").toList) := by
  have heval : sendMessage env db docID userID message
      = (Except.error stillProcessingMsg,
         { db with chatHistory :=
           db.chatHistory ++ [⟨env.userMsgId, docID, userID, ("user").toList, message⟩] }) := by
    unfold sendMessage
    simp only [h1, h2, h3, Bool.false_eq_true, if_false]
    rw [hdoc]
    dsimp only
    rw [hins]
    dsimp only
    rw [getDocumentChunks_set_chat, hchunks]
    rw [if_pos (show (List.length ([] : List Chunk)) = 0 from rfl)]
  refine ⟨by rw [heval], by decide, ?_⟩
  rw [heval]
  dsimp only
  rw [List.filter_append]
  simp

theorem sendMessage_zero_chunks_witness :
    (sendMessage ⟨("m1").toList, ("m2").toList, none, none, Except.ok (("ans").toList)⟩ dbW
        (("d1").toList) (("u1").toList) (("hi").toList)).fst
      = Except.error stillProcessingMsg
    ∧ sendMessageStatus stillProcessingMsg = 202
    ∧ (sendMessage ⟨("m1").toList, ("m2").toList, none, none, Except.ok (("ans").toList)⟩ dbW
        (("d1").toList) (("u1").toList) (("hi").toList)).snd.chatHistory.filter
          (fun m => m.messageType == ("ai").toList)
      = dbW.chatHistory.filter (fun m => m.messageType == ("ai").toList) :=
  sendMessage_zero_chunks _ dbW _ _ _ docD rfl rfl rfl rfl rfl rfl

/-- C5: once validation, the ownership check and the user-turn insert have
succeeded, the user-turn row is in chat_history in the final state of every
outcome of `SendMessage` — including the zero-chunk failure, a failed model
call and a failed AI-turn insert (the row is written before the chunk read
and the AI call, and nothing rolls it back). -/
theorem sendMessage_user_turn_persisted (env : ChatEnv) (db : DbState)
    (docID userID message : Str) (d : Document)
    (h1 : (trimSpace docID).isEmpty = false)
    (h2 : (trimSpace userID).isEmpty = false)
    (h3 : (trimSpace message).isEmpty = false)
    (hdoc : getDocument db docID userID = Except.ok d)
    (hins : env.insertUserErr = none) :
    (⟨env.userMsgId, docID, userID, ("user").toList, message⟩ : ChatMessage)
      ∈ (sendMessage env db docID userID message).snd.chatHistory := by
  unfold sendMessage
  simp only [h1, h2, h3, Bool.false_eq_true, if_false]
  rw [hdoc]
  dsimp only
  rw [hins]
  dsimp only
  by_cases hz : (getDocumentChunks
      { db with chatHistory :=
        db.chatHistory ++ [⟨env.userMsgId, docID, userID, ("user").toList, message⟩] } docID).length = 0
  · rw [if_pos hz]
    exact List.mem_append.mpr (Or.inr (by simp))
  · rw [if_neg hz]
    cases env.aiResult with
    | error e => exact List.mem_append.mpr (Or.inr (by simp))
    | ok aiResponse =>
      cases env.insertAiErr with
      | some e => exact List.mem_append.mpr (Or.inr (by simp))
      | none =>
        dsimp only
        exact List.mem_append.mpr (Or.inl (List.mem_append.mpr (Or.inr (by simp))))

theorem sendMessage_user_turn_persisted_witness :
    (⟨("m1").toList, ("d1").toList, ("u1").toList, ("user").toList, ("hi").toList⟩ : ChatMessage)
      ∈ (sendMessage ⟨("m1").toList, ("m2").toList, none, none, Except.error (("model down").toList)⟩
          dbW (("d1").toList) (("u1").toList) (("hi").toList)).snd.chatHistory :=
  sendMessage_user_turn_persisted _ dbW _ _ _ docD rfl rfl rfl rfl rfl

/-- Go `DeleteDocument` (document.go:163-195): ownership check through
`GetDocument`, row delete with cascade to chunks and chat history, then the
rowsAffected check; the best-effort blob delete happens outside `DbState`
(modelled in `createDocument`'s world for C1) and never fails the call. -/
def deleteDocument (db : DbState) (docID userID : Str) : Except Str Unit × DbState :=
  match getDocument db docID userID with
  | Except.error e => (Except.error e, db)
  | Except.ok _ =>
    let affected := (db.documents.filter (fun d => d.id == docID && d.userId == userID)).length
    let db' : DbState :=
      { documents := db.documents.filter (fun d => !(d.id == docID && d.userId == userID)),
        chunks := db.chunks.filter (fun c => !(c.documentId == docID)),
        chatHistory := db.chatHistory.filter (fun m => !(m.documentId == docID)) }
    if affected = 0 then (Except.error notFoundMsg, db')
    else (Except.ok (), db')

/-- Go `GetChatHistory` (chat.go:29-63): validation, ownership check, then
the per-document per-user history in insertion (timestamp) order. -/
def getChatHistory (db : DbState) (docID userID : Str) : Except Str (List ChatMessage) :=
  if (trimSpace docID).isEmpty then Except.error (("documentID cannot be empty").toList)
  else if (trimSpace userID).isEmpty then Except.error (("userID cannot be empty").toList)
  else
    match getDocument db docID userID with
    | Except.error e => Except.error e
    | Except.ok _ =>
      Except.ok (db.chatHistory.filter (fun m => m.documentId == docID && m.userId == userID))

/-- Go `DeleteChatHistory` (chat.go:127-141). -/
def deleteChatHistory (db : DbState) (docID userID : Str) : Except Str Unit × DbState :=
  match getDocument db docID userID with
  | Except.error e => (Except.error e, db)
  | Except.ok _ =>
    let db' : DbState := { db with chatHistory :=
      (db.chatHistory.filter (fun m => !(m.documentId == docID && m.userId == userID))) }
    (Except.ok (), db')

/-- The synthetic placeholder used by `CompareDocuments` for a document
without chunks (document.go:425). -/
def comparePlaceholder (fileName : Str) : Str :=
  ("Document '").toList ++ fileName ++ ("' content is not available for comparison").toList

/-- The per-id loop of Go `CompareDocuments` (document.go:403-429): ownership
check with which-id error context, chunk gathering, placeholder substitution;
the first failure aborts the whole call. -/
def compareLoop (db : DbState) (userID : Str) :
    List Str → Except Str (List Document × List (List Str))
  | [] => Except.ok ([], [])
  | docID :: rest =>
    match getDocument db docID userID with
    | Except.error e =>
      Except.error ((("document ").toList ++ docID
        ++ (" not found or access denied: ").toList) ++ e)
    | Except.ok doc =>
      let chunkTexts := (getDocumentChunks db docID).map Chunk.content
      let chunkTexts' := if chunkTexts.isEmpty then [comparePlaceholder doc.fileName] else chunkTexts
      match compareLoop db userID rest with
      | Except.error e => Except.error e
      | Except.ok (docs, chs) => Except.ok (doc :: docs, chunkTexts' :: chs)

/-- Go `CompareDocuments` (document.go:390-432): 2-to-5 bound checks, then
the per-id gathering loop. -/
def compareDocuments (db : DbState) (documentIDs : List Str) (userID : Str) :
    Except Str (List Document × List (List Str)) :=
  if documentIDs.length < 2 then
    Except.error (("at least 2 documents are required for comparison").toList)
  else if 5 < documentIDs.length then
    Except.error (("maximum 5 documents can be compared at once").toList)
  else compareLoop db userID documentIDs

/-- No document row with this id belongs to this user: the id either does
not exist at all or belongs to a different owner. -/
abbrev notOwned (db : DbState) (docID userID : Str) : Prop :=
  ∀ d ∈ db.documents, d.id = docID → d.userId ≠ userID

theorem getDocument_notOwned (db : DbState) (docID userID : Str)
    (h : notOwned db docID userID) :
    getDocument db docID userID = Except.error notFoundMsg := by
  unfold getDocument
  have hf : db.documents.find? (fun d => d.id == docID && d.userId == userID) = none := by
    apply List.find?_eq_none.mpr
    intro d hd hp
    rw [Bool.and_eq_true, beq_iff_eq, beq_iff_eq] at hp
    exact h d hd hp.1 hp.2
  rw [hf]

theorem getDocument_error_msg (db : DbState) (docID userID : Str) (e : Str)
    (h : getDocument db docID userID = Except.error e) : e = notFoundMsg := by
  unfold getDocument at h
  cases hf : db.documents.find? (fun d => d.id == docID && d.userId == userID) with
  | none =>
    rw [hf] at h
    injection h with h'
    exact h'.symm
  | some x => rw [hf] at h; cases h

theorem compareLoop_notOwned (db : DbState) (userID : Str) :
    ∀ ids : List Str, (∃ i ∈ ids, notOwned db i userID) →
      ∃ e, compareLoop db userID ids = Except.error e
        ∧ strContains e (("not found").toList) = true := by
  intro ids
  induction ids with
  | nil =>
    rintro ⟨i, hi, _⟩
    cases hi
  | cons docID rest ih =>
    rintro ⟨i, hi, hno⟩
    cases hgd : getDocument db docID userID with
    | error e =>
      have he : e = notFoundMsg := getDocument_error_msg db docID userID e hgd
      refine ⟨(("document ").toList ++ docID ++ (" not found or access denied: ").toList) ++ e,
        by simp only [compareLoop, hgd], ?_⟩
      subst he
      apply strContains_append_left
      decide
    | ok doc =>
      have hrest : ∃ i ∈ rest, notOwned db i userID := by
        rcases List.mem_cons.mp hi with h | h
        · exfalso
          subst h
          have hfacts := getDocument_ok_facts db i userID doc hgd
          exact hno doc hfacts.1 hfacts.2.1 hfacts.2.2
        · exact ⟨i, h, hno⟩
      rcases ih hrest with ⟨e, he, hc⟩
      refine ⟨e, ?_, hc⟩
      simp only [compareLoop, hgd, he]

/-- C6: when no document row with id `docID` is owned by `userA` — whether
the id belongs to another owner or does not exist at all — `getDocument`
returns the one NotFound error, the state with the document absent is
indistinguishable from the state with it foreign-owned, and every accessor
routed through the ownership check (delete, reprocess, chat history read,
send message, chat history delete, comparison) surfaces that same
NotFound condition (mapped by the handlers to 404), never a
permission-specific error. -/
theorem ownership_notFound_indistinguishable (db : DbState) (docID userA message : Str)
    (ids : List Str) (env : ChatEnv) (penv : ProcEnv) (deleteOk : Bool)
    (hno : notOwned db docID userA)
    (h1 : (trimSpace docID).isEmpty = false)
    (h2 : (trimSpace userA).isEmpty = false)
    (h3 : (trimSpace message).isEmpty = false)
    (hlen2 : 2 ≤ ids.length) (hlen5 : ids.length ≤ 5)
    (hbad : ∃ i ∈ ids, notOwned db i userA) :
    getDocument db docID userA = Except.error notFoundMsg
    ∧ getDocument { db with documents := (db.documents.filter (fun d => !(d.id == docID))) }
        docID userA
      = getDocument db docID userA
    ∧ deleteDocument db docID userA = (Except.error notFoundMsg, db)
    ∧ reprocessDocument penv deleteOk db docID userA = (Except.error notFoundMsg, db)
    ∧ getChatHistory db docID userA = Except.error notFoundMsg
    ∧ sendMessage env db docID userA message = (Except.error notFoundMsg, db)
    ∧ deleteChatHistory db docID userA = (Except.error notFoundMsg, db)
    ∧ (∃ e, compareDocuments db ids userA = Except.error e
        ∧ strContains e (("not found").toList) = true)
    ∧ sendMessageStatus notFoundMsg = 404 := by
  have hgd : getDocument db docID userA = Except.error notFoundMsg :=
    getDocument_notOwned db docID userA hno
  refine ⟨hgd, ?_, ?_, ?_, ?_, ?_, ?_, ?_, by decide⟩
  · have hno' : notOwned { db with documents := (db.documents.filter (fun d => !(d.id == docID))) }
        docID userA := by
      intro d hd hid
      exfalso
      have hp := List.of_mem_filter hd
      rw [Bool.not_eq_true', beq_eq_false_iff_ne] at hp
      exact hp hid
    rw [getDocument_notOwned _ docID userA hno', hgd]
  · unfold deleteDocument
    rw [hgd]
  · unfold reprocessDocument
    rw [hgd]
  · unfold getChatHistory
    simp only [h1, h2, Bool.false_eq_true, if_false]
    rw [hgd]
  · unfold sendMessage
    simp only [h1, h2, h3, Bool.false_eq_true, if_false]
    rw [hgd]
  · unfold deleteChatHistory
    rw [hgd]
  · unfold compareDocuments
    rw [if_neg (by omega), if_neg (by omega)]
    exact compareLoop_notOwned db userA ids hbad

/-- One document owned by alice; bob owns nothing. -/
def dbO : DbState := ⟨[⟨("d1").toList, ("alice").toList, ("f.txt").toList, none⟩], [], []⟩

theorem ownership_notFound_indistinguishable_witness :
    getDocument dbO (("d1").toList) (("bob").toList) = Except.error notFoundMsg
    ∧ getDocument { dbO with documents := (dbO.documents.filter (fun d => !(d.id == ("d1").toList))) }
        (("d1").toList) (("bob").toList)
      = getDocument dbO (("d1").toList) (("bob").toList)
    ∧ deleteDocument dbO (("d1").toList) (("bob").toList) = (Except.error notFoundMsg, dbO)
    ∧ reprocessDocument envAllOk true dbO (("d1").toList) (("bob").toList)
      = (Except.error notFoundMsg, dbO)
    ∧ getChatHistory dbO (("d1").toList) (("bob").toList) = Except.error notFoundMsg
    ∧ sendMessage ⟨("m1").toList, ("m2").toList, none, none, Except.ok (("ans").toList)⟩ dbO
        (("d1").toList) (("bob").toList) (("hi").toList)
      = (Except.error notFoundMsg, dbO)
    ∧ deleteChatHistory dbO (("d1").toList) (("bob").toList) = (Except.error notFoundMsg, dbO)
    ∧ (∃ e, compareDocuments dbO [("d1").toList, ("d2").toList] (("bob").toList) = Except.error e
        ∧ strContains e (("not found").toList) = true)
    ∧ sendMessageStatus notFoundMsg = 404 :=
  ownership_notFound_indistinguishable dbO (("d1").toList) (("bob").toList) (("hi").toList)
    [("d1").toList, ("d2").toList]
    ⟨("m1").toList, ("m2").toList, none, none, Except.ok (("ans").toList)⟩ envAllOk true
    (by decide) rfl rfl rfl (by decide) (by decide) (by decide)

/-- The external world around `CreateDocument`: the database plus the blob
store (the list of stored object keys). -/
structure World where
  db : DbState
  blobs : List Str
deriving DecidableEq

/-- Outcomes of the external steps of one `CreateDocument` call.
`uploadedKey` is the collision-resistant storage key the upload produces
(`none` = upload failure); `getDocOk` is whether the post-commit retrieval
query succeeds at the transport level (its row scan can fail transiently);
`deleteFileOk` is whether the best-effort cleanup delete succeeds; `docId`
is the generated UUID. -/
structure CreateEnv where
  storageInit : Bool
  uploadedKey : Option Str
  beginTxOk : Bool
  insertOk : Bool
  commitOk : Bool
  getDocOk : Bool
  deleteFileOk : Bool
  docId : Str

/-- Go `StorageService.DeleteFile` as used best-effort by `CreateDocument`:
on failure the warning is logged and the blob stays. -/
def deleteFile (env : CreateEnv) (w : World) (key : Str) : World :=
  if env.deleteFileOk then { w with blobs := (w.blobs.filter (fun k => !(k == key))) }
  else w

/-- Go `CreateDocument` (document.go:32-113): validation, storage-ready
check, blob upload, then a transaction (begin / insert / commit — the row
becomes visible only at commit, a rollback leaves the table unchanged, and
the deferred rollback after a successful commit is a no-op), then the
post-commit retrieval re-read, and finally the fire-and-forget background
processing (a goroutine, not part of this call's effect).  Every failure
branch after the upload calls the best-effort blob cleanup; the wrapped
lower-level error texts are abstracted to fixed strings. -/
def createDocument (env : CreateEnv) (w : World) (userID fileName : Str)
    (contentNil : Bool) : Except Str Document × World :=
  if (trimSpace userID).isEmpty then (Except.error (("userID cannot be empty").toList), w)
  else if (trimSpace fileName).isEmpty then
    (Except.error (("fileName cannot be empty").toList), w)
  else if contentNil then (Except.error (("fileContent cannot be nil").toList), w)
  else if !env.storageInit then
    (Except.error
      (("storage service is not initialized - please check your GCS configuration").toList), w)
  else
    match env.uploadedKey with
    | none => (Except.error (("failed to upload file to storage: storage error").toList), w)
    | some key =>
      let w1 : World := { w with blobs := w.blobs ++ [key] }
      if !env.beginTxOk then
        (Except.error (("failed to begin transaction: db error").toList), deleteFile env w1 key)
      else if !env.insertOk then
        (Except.error (("failed to create document record: db error").toList),
         deleteFile env w1 key)
      else if !env.commitOk then
        (Except.error (("failed to commit transaction: db error").toList), deleteFile env w1 key)
      else
        let w2 : World := { w1 with db := { w1.db with documents :=
          (w1.db.documents ++ [⟨env.docId, userID, fileName, some key⟩]) } }
        if !env.getDocOk then
          (Except.error (("failed to retrieve created document: db error").toList),
           deleteFile env w2 key)
        else
          match getDocument w2.db env.docId userID with
          | Except.error e =>
            (Except.error ((("failed to retrieve created document: ").toList) ++ e),
             deleteFile env w2 key)
          | Except.ok doc => (Except.ok doc, w2)

def envRetrievalFail : CreateEnv :=
  ⟨true, some (("k1").toList), true, true, true, false, true, ("d1").toList⟩

/-- C1 (code bug): with upload, begin, insert and commit all succeeding but
the post-commit retrieval query failing transiently, `CreateDocument`
returns an error and deletes the just-uploaded blob, yet the committed
`documents` row is left behind — the code's own comment (document.go:101)
says "Clean up both storage and database record if retrieval fails" but only
the blob is deleted.  A Document row then exists whose blob is unreachable,
contradicting "no document row is left behind" and the row-iff-blob
invariant. -/
theorem createDocument_retrieval_failure_leaves_row :
    (createDocument envRetrievalFail ⟨⟨[], [], []⟩, []⟩ (("u1").toList) (("f.txt").toList)
        false).fst
      = Except.error (("failed to retrieve created document: db error").toList)
    ∧ (createDocument envRetrievalFail ⟨⟨[], [], []⟩, []⟩ (("u1").toList) (("f.txt").toList)
        false).snd.blobs = []
    ∧ (createDocument envRetrievalFail ⟨⟨[], [], []⟩, []⟩ (("u1").toList) (("f.txt").toList)
        false).snd.db.documents
      = [⟨("d1").toList, ("u1").toList, ("f.txt").toList, some (("k1").toList)⟩] :=
  ⟨rfl, rfl, rfl⟩

/-- Go `strings.TrimPrefix`. -/
def trimLead (pre s : Str) : Str := if pre.isPrefixOf s then s.drop pre.length else s

/-- The four bulleted-list buckets of a comparison (SUMMARY accumulates into
the summary string instead, with `cur = none`). -/
inductive Bucket
  | similarities
  | differences
  | keyThemes
  | insights
deriving DecidableEq

/-- The loop state of `parseComparisonResponse`: the active section pointer
(`none` both initially and after a SUMMARY: marker) plus the accumulators. -/
structure ParseState where
  cur : Option Bucket
  summary : Str
  similarities : List Str
  differences : List Str
  keyThemes : List Str
  insights : List Str
deriving DecidableEq

/-- The text part of a parsed comparison (models.DocumentComparison minus
the documents snapshot and timestamp, which the parser only copies). -/
structure ParsedComparison where
  summary : Str
  similarities : List Str
  differences : List Str
  keyThemes : List Str
  insights : List Str
deriving DecidableEq

def goToUpper (s : Str) : Str := s.map Char.toUpper

def markers : List Str :=
  [("SUMMARY:").toList, ("SIMILARITIES:").toList, ("DIFFERENCES:").toList,
   ("KEY_THEMES:").toList, ("INSIGHTS:").toList]

/-- The marker a (trimmed) line starts, if any.  Go iterates its `sections`
map checking `strings.HasPrefix(strings.ToUpper(line), sectionName)`; no
marker is a prefix of another, so at most one can match and the map's
random iteration order is immaterial. -/
def matchedMarker (line : Str) : Option Str :=
  markers.find? (fun m => m.isPrefixOf (goToUpper line))

def bucketOf (m : Str) : Bucket :=
  if m = ("SIMILARITIES:").toList then Bucket.similarities
  else if m = ("DIFFERENCES:").toList then Bucket.differences
  else if m = ("KEY_THEMES:").toList then Bucket.keyThemes
  else Bucket.insights

def addToBucket (st : ParseState) (b : Bucket) (content : Str) : ParseState :=
  match b with
  | Bucket.similarities => { st with similarities := st.similarities ++ [content] }
  | Bucket.differences => { st with differences := st.differences ++ [content] }
  | Bucket.keyThemes => { st with keyThemes := st.keyThemes ++ [content] }
  | Bucket.insights => { st with insights := st.insights ++ [content] }

/-- Bullet stripping (ai.go:252): `TrimPrefix` by "-", then "•", then "*",
then `TrimSpace`. -/
def stripBullet (line : Str) : Str :=
  trimSpace (trimLead (("*").toList) (trimLead (("•").toList) (trimLead (("-").toList) line)))

def isBulleted (line : Str) : Bool :=
  (("-").toList).isPrefixOf line || (("•").toList).isPrefixOf line
    || (("*").toList).isPrefixOf line

/-- One iteration of the line loop of `parseComparisonResponse`
(ai.go:222-267): trim, skip empty lines, switch buckets on a marker line
(SUMMARY: takes its same-line remainder into the summary, with no space),
strip bullets inside an active bucket, and space-join markerless lines into
the summary when no bucket is active. -/
def parseLine (st : ParseState) (rawLine : Str) : ParseState :=
  let line := trimSpace rawLine
  if line.isEmpty then st
  else
    match matchedMarker line with
    | some m =>
      if m = ("SUMMARY:").toList then
        let content := trimSpace (line.drop m.length)
        { st with cur := none,
                  summary := if content.isEmpty then st.summary else st.summary ++ content }
      else { st with cur := some (bucketOf m) }
    | none =>
      match st.cur with
      | some b =>
        if isBulleted line then
          let content := stripBullet line
          if content.isEmpty then st else addToBucket st b content
        else addToBucket st b line
      | none =>
        { st with summary := if st.summary.isEmpty then line else st.summary ++ ' ' :: line }

def defaultSummary : Str :=
  ("Document comparison completed. Please review the detailed analysis below.").toList

/-- Go `parseComparisonResponse` (ai.go:194-277), text part: split on
newlines, fold the line loop from the empty state, then substitute the
default summary when the accumulated summary is empty.  The function is
total: a format deviation never produces an error. -/
def parseComparisonResponse (response : Str) : ParsedComparison :=
  let st := (splitLines response).foldl parseLine ⟨none, [], [], [], [], []⟩
  { summary := if st.summary.isEmpty then defaultSummary else st.summary,
    similarities := st.similarities,
    differences := st.differences,
    keyThemes := st.keyThemes,
    insights := st.insights }

/-- The summary accumulation: fold of "append with a separating space unless
empty so far". -/
def joinAcc (s : Str) : List Str → Str
  | [] => s
  | w :: ws => joinAcc (if s.isEmpty then w else s ++ ' ' :: w) ws

/-- The trimmed nonempty lines of a response. -/
def cleanLines (response : Str) : List Str :=
  ((splitLines response).map trimSpace).filter (fun l => !l.isEmpty)

theorem foldl_parseLine_noMarker :
    ∀ (lines : List Str) (st : ParseState),
      st.cur = none →
      (∀ l ∈ lines, matchedMarker (trimSpace l) = none) →
      lines.foldl parseLine st
        = { st with summary :=
            (joinAcc st.summary ((lines.map trimSpace).filter (fun l => !l.isEmpty))) } := by
  intro lines
  induction lines with
  | nil => intro st _ _; rfl
  | cons l rest ih =>
    intro st hcur H
    have hl : matchedMarker (trimSpace l) = none := H l (by simp)
    have Hrest : ∀ u ∈ rest, matchedMarker (trimSpace u) = none :=
      fun u hu => H u (by simp [hu])
    rw [List.foldl_cons, List.map_cons, List.filter_cons]
    by_cases he : (trimSpace l).isEmpty
    · have hstep : parseLine st l = st := by
        unfold parseLine
        rw [if_pos he]
      rw [hstep]
      simp only [he, Bool.not_true, Bool.false_eq_true, if_false]
      exact ih st hcur Hrest
    · have hstep : parseLine st l
          = { st with summary :=
              if st.summary.isEmpty then trimSpace l else st.summary ++ ' ' :: trimSpace l } := by
        unfold parseLine
        rw [if_neg he, hl, hcur]
      rw [hstep]
      have he' : (!(trimSpace l).isEmpty) = true := by
        rw [Bool.not_eq_true']
        exact Bool.not_eq_true _ |>.mp he
      rw [if_pos he']
      rw [ih { st with summary :=
          (if st.summary.isEmpty then trimSpace l else st.summary ++ ' ' :: trimSpace l) }
        hcur Hrest]
      rfl

/-- C9 (amended): for a response none of whose (trimmed) lines starts with
one of the five section markers, the parser returns empty similarities,
differences, key_themes and insights, and the summary is the space-join of
the response's trimmed nonempty lines (the default completion message when
there are none) — never an error. -/
theorem parseComparison_no_marker (response : Str)
    (H : ∀ l ∈ splitLines response, matchedMarker (trimSpace l) = none) :
    (parseComparisonResponse response).similarities = []
    ∧ (parseComparisonResponse response).differences = []
    ∧ (parseComparisonResponse response).keyThemes = []
    ∧ (parseComparisonResponse response).insights = []
    ∧ (parseComparisonResponse response).summary
      = (if (joinAcc [] (cleanLines response)).isEmpty then defaultSummary
         else joinAcc [] (cleanLines response)) := by
  unfold parseComparisonResponse
  rw [foldl_parseLine_noMarker (splitLines response) ⟨none, [], [], [], [], []⟩ rfl H]
  exact ⟨rfl, rfl, rfl, rfl, rfl⟩

theorem parseComparison_no_marker_witness :
    (parseComparisonResponse (("a\nb").toList)).similarities = []
    ∧ (parseComparisonResponse (("a\nb").toList)).differences = []
    ∧ (parseComparisonResponse (("a\nb").toList)).keyThemes = []
    ∧ (parseComparisonResponse (("a\nb").toList)).insights = []
    ∧ (parseComparisonResponse (("a\nb").toList)).summary
      = (if (joinAcc [] (cleanLines (("a\nb").toList))).isEmpty then defaultSummary
         else joinAcc [] (cleanLines (("a\nb").toList))) :=
  parseComparison_no_marker (("a\nb").toList) (by decide)

/-- C9 counterexample: the two-line response "a\nb" contains none of the
five section markers, yet the parsed summary is "a b" — the space-join of
the trimmed lines — not the entire output text "a\nb". -/
theorem parseComparison_no_marker_cex :
    (∀ l ∈ splitLines (("a\nb").toList), matchedMarker (trimSpace l) = none)
    ∧ (parseComparisonResponse (("a\nb").toList)).summary ≠ (("a\nb").toList) := by
  constructor
  · decide
  · decide
